import Mathlib

/-!
Verification development for the crawl4ai_download repository.

The Python source is shallowly embedded: pure string manipulation is
translated to executable Lean functions on `String` / `List Char`;
the I/O loops (retry loop of `capture_page`, the Cloudflare gate, the
level chain of `verify_config`) are embedded as functions over oracles
that supply the outcome of each external call; the asyncio semaphore
discipline of the downloaders is embedded as a step relation.
-/

/-- Model of Python string prefix test (`str.startswith`): `leadsWith a b`
is true when the list `a` is an initial segment of `b`. -/
def leadsWith : List Char → List Char → Bool
  | [], _ => true
  | _ :: _, [] => false
  | a :: as, b :: bs => a == b && leadsWith as bs

/-- `occursIn needle hay`: `needle` occurs contiguously inside `hay`. -/
def occursIn (needle : List Char) : List Char → Bool
  | [] => leadsWith needle []
  | c :: t => leadsWith needle (c :: t) || occursIn needle t

/-- Model of the Python membership test `needle in hay` on strings. -/
def pyIn (needle hay : String) : Bool :=
  occursIn needle.toList hay.toList

/-! ## Challenge gate (src/craw_tool/page_capturer.py `_handle_cloudflare`,
src/craw_tool/downloader_pdf.py `_handle_cloudflare`,
src/craw_tool/crawler_service.py `_build_js_code`) -/

/-- Challenge-page detection of `PageCapturerService._handle_cloudflare`
(page_capturer.py lines 269-274): the `is_cloudflare` test. -/
def isCloudflarePage (title content : String) : Bool :=
  pyIn "请稍候" title || pyIn "Just a moment" title ||
  pyIn "Cloudflare" content || pyIn "Verify you are human" content

/-- Challenge-page detection of `PDFDownloaderService._handle_cloudflare`
(downloader_pdf.py lines 371-377). -/
def isCloudflarePageDl (title content : String) : Bool :=
  pyIn "请稍候" title || pyIn "Just a moment" title ||
  pyIn "Cloudflare" content || pyIn "确认您是真人" content ||
  pyIn "Verify you are human" content

/-- Challenge-wait test embedded in the JavaScript built by
`CrawlerService._build_js_code` (crawler_service.py lines 351-354):
the page is still treated as a verification page while this is true. -/
def jsIsChallengePage (title bodyText : String) : Bool :=
  pyIn "请稍候" title || pyIn "Just a moment" title ||
  pyIn "Checking" title || pyIn "Verify" title ||
  pyIn "Checking if the site connection is secure" bodyText ||
  pyIn "正在验证" bodyText

/-- Result of one `_handle_cloudflare` call.  `cleared` is the returned
boolean (the source always returns `True`); `manual` records whether the
manual-intervention prompt (blocking `input()`) was reached; `inspections`
counts how many times the page title/content were inspected. -/
structure GateOutcome where
  cleared : Bool
  manual : Bool
  inspections : Nat
  deriving DecidableEq

/-- The `for attempt in range(n)` loop of `_handle_cloudflare`, generic in
the marker test.  `pages i` is the (title, content) pair observed by the
i-th inspection; when the attempts are exhausted the flow blocks on the
human Enter signal and then returns `True` without looking at the page
again. -/
def gateLoop (check : String → String → Bool) (pages : Nat → String × String) :
    Nat → Nat → GateOutcome
  | 0, done => ⟨true, true, done⟩
  | fuel + 1, done =>
    let p := pages done
    if check p.1 p.2 then gateLoop check pages fuel (done + 1)
    else ⟨true, false, done + 1⟩

/-- `PageCapturerService._handle_cloudflare` (page_capturer.py lines
263-289): three automated rounds, then the manual prompt. -/
def handleCloudflare (pages : Nat → String × String) : GateOutcome :=
  gateLoop isCloudflarePage pages 3 0

/-- `PDFDownloaderService._handle_cloudflare` (downloader_pdf.py lines
354-482) with its default `max_attempts = 3`.  The automated clicking
between inspections swallows its own exceptions and only affects what the
next inspection sees, which the `pages` oracle accounts for. -/
def handleCloudflareDl (pages : Nat → String × String) : GateOutcome :=
  gateLoop isCloudflarePageDl pages 3 0

/-! ## Retry loop of `PageCapturerService.capture_page`
(page_capturer.py lines 312-513) and the per-record loop of `run`
(lines 567-605) -/

/-- Outcome of one iteration of the `for retry in range(max_retries + 1)`
body: the single `page.goto` call plus the screenshot/HTML work after it.
`httpError` is a response with `not response.ok`; `exnErr crash` is a
caught exception whose message does (`crash = true`) or does not contain
"closed"/"crash". -/
inductive Attempt where
  | success
  | noResponse
  | httpError (status : Nat)
  | timeoutErr
  | exnErr (crash : Bool)
  deriving DecidableEq

/-- Final status of `capture_page` for one record. -/
inductive CapStatus where
  | success
  | failed
  | crashed
  deriving DecidableEq

/-- What one `capture_page` call produces: its status and the number of
`page.goto` calls (loop iterations) it made. -/
structure CapResult where
  status : CapStatus
  fetches : Nat
  deriving DecidableEq

/-- The retry loop of `capture_page`: `oracle i` is the outcome of the
i-th iteration.  A non-ok response `continue`s to the next iteration, a
timeout or non-crash exception falls through to the retry sleep, a crash
exception returns immediately with the `browser_crashed` flag, and an
exhausted loop marks the record failed. -/
def capturePageAux (oracle : Nat → Attempt) : Nat → Nat → CapResult
  | 0, used => ⟨CapStatus.failed, used⟩
  | fuel + 1, used =>
    match oracle used with
    | Attempt.success => ⟨CapStatus.success, used + 1⟩
    | Attempt.noResponse => capturePageAux oracle fuel (used + 1)
    | Attempt.httpError _ => capturePageAux oracle fuel (used + 1)
    | Attempt.timeoutErr => capturePageAux oracle fuel (used + 1)
    | Attempt.exnErr true => ⟨CapStatus.crashed, used + 1⟩
    | Attempt.exnErr false => capturePageAux oracle fuel (used + 1)

/-- `PageCapturerService.capture_page` for one record: at most
`max_retries + 1` iterations of the goto/capture body. -/
def capturePage (oracle : Nat → Attempt) (maxRetries : Nat) : CapResult :=
  capturePageAux oracle (maxRetries + 1) 0

/-- The body of the `while i < total` loop of `PageCapturerService.run`
for a single record: a crashed capture is not appended to the results and
the same record is re-processed with a fresh browser (`oracle g` is the
attempt oracle of browser generation `g`); any other capture result is
appended exactly once.  `fuel` bounds the browser restarts considered. -/
def processRecordAux (oracle : Nat → Nat → Attempt) (maxRetries : Nat) :
    Nat → Nat → List CapResult
  | _, 0 => []
  | gen, fuel + 1 =>
    let r := capturePage (oracle gen) maxRetries
    match r.status with
    | CapStatus.crashed => processRecordAux oracle maxRetries (gen + 1) fuel
    | _ => [r]

/-- Outcome records appended by one scheduling pass of
`PageCapturerService.run` over a list of records. -/
def runPass (oracles : List (Nat → Nat → Attempt)) (maxRetries fuel : Nat) :
    List CapResult :=
  (oracles.map (fun o => processRecordAux o maxRetries 0 fuel)).flatten

/-! ## Single fetch of `PDFDownloaderService.download_pdf_with_browser`
(downloader_pdf.py lines 566-660) -/

/-- Outcome of the single `page.goto(pdf_url, ...)` call made by
`download_pdf_with_browser` (there is no retry loop in that method). -/
inductive PdfFetch where
  | ok (contentType : String) (bodyBeginsPdf : Bool)
  | httpErr (status : Nat)
  | noResp
  | exn
  deriving DecidableEq

/-- Classification and goto-call count of the download attempt of
`download_pdf_with_browser` for a record whose file does not already
exist: exactly one fetch, status "downloaded" only when the response is
ok and looks like a PDF, otherwise "failed". -/
def downloadAttempt (f : PdfFetch) : String × Nat :=
  match f with
  | PdfFetch.ok ct beginsPdf =>
    if pyIn "pdf" ct || beginsPdf then ("downloaded", 1) else ("failed", 1)
  | PdfFetch.httpErr _ => ("failed", 1)
  | PdfFetch.noResp => ("failed", 1)
  | PdfFetch.exn => ("failed", 1)

/-! ## Bounded-concurrency download scheduler
(src/craw_paper/download_pdf.py lines 147-157 `download_with_semaphore`,
src/craw_tool/downloader_pdf.py lines 265-276 `DownloadManager`) -/

/-- State of one download task wrapped in `async with semaphore`. -/
inductive TStat where
  | pending
  | inflight
  | done
  deriving DecidableEq

/-- Number of tasks currently inside the semaphore-guarded region. -/
def countInflight : List TStat → Nat
  | [] => 0
  | TStat.inflight :: ts => countInflight ts + 1
  | _ :: ts => countInflight ts

/-- Interleaving semantics of `asyncio.Semaphore(n)` around each fetch:
a pending task may enter the guarded region only while fewer than `n`
tasks are in flight (`acquire`), and an in-flight task may leave it
(`release`). -/
inductive SemStep (n : Nat) : List TStat → List TStat → Prop
  | start (ts : List TStat) (i : Nat) (h : ts.get? i = some TStat.pending)
      (hn : countInflight ts < n) : SemStep n ts (ts.set i TStat.inflight)
  | finish (ts : List TStat) (i : Nat) (h : ts.get? i = some TStat.inflight) :
      SemStep n ts (ts.set i TStat.done)

/-- States reachable by interleaving semaphore-guarded download tasks. -/
inductive SemReach (n : Nat) (init : List TStat) : List TStat → Prop
  | refl : SemReach n init init
  | step {ts ts2 : List TStat} : SemReach n init ts → SemStep n ts ts2 →
      SemReach n init ts2

/-! ## JSONL storage (src/craw_tool/crawler_service.py `JSONLStorage`)
and the dedup-before-save step of `CrawlerService.crawl` (lines 648-661).

A line of the durable log is modelled as `Option String`: `none` is a
line that fails JSON parsing (skipped by `load_existing_urls`), `some u`
is a parsed record whose `matched_url` field reads back as `u`
(`record.get("matched_url", "")` yields `""` when the field is absent). -/

/-- `JSONLStorage.load_existing_urls` (crawler_service.py lines 277-296);
the Python `set` is modelled by this list up to membership. -/
def loadExistingUrls (lines : List (Option String)) : List String :=
  lines.filterMap id

/-- The dedup step of `CrawlerService.crawl` (lines 648-650):
`new_urls = [url for url in matched_urls if url not in existing_urls]`. -/
def newUrls (log : List (Option String)) (matched : List String) : List String :=
  matched.filter (fun u => decide (u ∉ loadExistingUrls log))

/-- `JSONLStorage.save_results` called on `new_urls` (lines 654-660):
appends one record per new URL, whose `matched_url` field is that URL. -/
def saveRecords (log : List (Option String)) (matched : List String) :
    List (Option String) :=
  log ++ (newUrls log matched).map (fun u => some u)

/-! ## Filename sanitizer (src/craw_tool/page_capturer.py
`FilenameProcessor.sanitize`, lines 104-135) -/

/-- The character class of `ILLEGAL_CHARS = re.compile(r'[<>:"/\\|?*\x00-\x1f]')`. -/
def isIllegalChar (c : Char) : Bool :=
  c = '<' || c = '>' || c = ':' || c = '"' || c = '/' || c = '\\' ||
  c = '|' || c = '?' || c = '*' || c.toNat ≤ 0x1f

/-- The characters matched by Python's regex `\s` on str patterns
(ASCII whitespace, the file separators 1C-1F, and the Unicode
White_Space code points). -/
def pySpace (c : Char) : Bool :=
  c = ' ' || ('\x09' ≤ c && c ≤ '\x0d') || ('\x1c' ≤ c && c ≤ '\x1f') ||
  c = '\x85' || c = '\xa0' || c.toNat = 0x1680 ||
  (0x2000 ≤ c.toNat && c.toNat ≤ 0x200a) ||
  c.toNat = 0x2028 || c.toNat = 0x2029 || c.toNat = 0x202f ||
  c.toNat = 0x205f || c.toNat = 0x3000

/-- The strip set of `filename.strip(' .')`. -/
def isSpaceDot (c : Char) : Bool := c = ' ' || c = '.'

/-- The character class of `re.sub(r'[\s_]+', '_', filename)`. -/
def isSpaceUnd (c : Char) : Bool := pySpace c || c = '_'

/-- `filename.strip(' .')`: drop leading and trailing spaces and dots. -/
def stripSpaceDot (l : List Char) : List Char :=
  ((l.dropWhile isSpaceDot).reverse.dropWhile isSpaceDot).reverse

/-- `re.sub(r'[\s_]+', '_', filename)`: every maximal run of whitespace
and underscores becomes a single underscore. -/
def collapseRuns : List Char → List Char
  | [] => []
  | [c] => if isSpaceUnd c then ['_'] else [c]
  | c :: d :: cs =>
    if isSpaceUnd c then
      if isSpaceUnd d then collapseRuns (d :: cs)
      else '_' :: collapseRuns (d :: cs)
    else c :: collapseRuns (d :: cs)

/-- The cleaning pipeline of `FilenameProcessor.sanitize` before the
length cut: replace illegal characters by `_`, strip spaces/dots at the
ends, collapse whitespace/underscore runs. -/
def sanitizeClean (filename : String) : List Char :=
  collapseRuns (stripSpaceDot
    (filename.toList.map (fun c => if isIllegalChar c then '_' else c)))

/-- `FilenameProcessor.sanitize` (page_capturer.py lines 111-135):
clean, truncate to `max_length`, and fall back to "unnamed" when the
cleaned name is empty. -/
def sanitize (filename : String) (maxLength : Nat) : String :=
  let s := sanitizeClean filename
  let s := if s.length > maxLength then s.take maxLength else s
  if s.isEmpty then "unnamed" else ⟨s⟩

/-! ## URL resolution.

`verify_config.py`, `crawler_service.py` and `download_pdf.py` resolve
candidate links with `urllib.parse.urljoin`.  The functions below model
CPython's `urljoin`/`urlsplit`/`urlunsplit` for URLs that contain no
`;`-path parameters, no tab/newline/leading-control characters and no
bracketed IPv6 hosts (none of the inputs of interest contain them; the
stdlib strips or splits those before the algorithm modelled here runs,
and malformed brackets make it raise instead). -/

/-- Split a list at the first occurrence of `delim`; `none` when the
delimiter does not occur. -/
def splitFirst (delim : Char) : List Char → Option (List Char × List Char)
  | [] => none
  | c :: cs =>
    if c = delim then some ([], cs)
    else
      match splitFirst delim cs with
      | none => none
      | some (a, b) => some (c :: a, b)

/-- Characters allowed in a URL scheme after the first letter. -/
def isSchemeChar (c : Char) : Bool :=
  c.isAlpha || c.isDigit || c = '+' || c = '-' || c = '.'

/-- Scheme detection of `urlsplit`: a valid scheme before the first `:`
is split off and lowercased, otherwise the URL is left whole. -/
def splitScheme (url : List Char) : List Char × List Char :=
  match splitFirst ':' url with
  | none => ([], url)
  | some (pre, rest) =>
    match pre with
    | [] => ([], url)
    | c :: _ =>
      if c.isAlpha && pre.all isSchemeChar then (pre.map Char.toLower, rest)
      else ([], url)

/-- Netloc detection of `urlsplit`: after a leading `//`, the netloc
extends up to the next `/`, `?` or `#`. -/
def splitNetloc (url : List Char) : List Char × List Char :=
  if leadsWith ['/', '/'] url = true then
    ((url.drop 2).takeWhile (fun c => !(c = '/' || c = '?' || c = '#')),
     (url.drop 2).dropWhile (fun c => !(c = '/' || c = '?' || c = '#')))
  else ([], url)

/-- Parsed URL components (`params` is empty for the inputs modelled). -/
structure UrlParts where
  scheme : List Char
  netloc : List Char
  path : List Char
  query : List Char
  fragment : List Char
  deriving DecidableEq

/-- `urllib.parse.urlsplit(url, default)` (with `allow_fragments=True`):
scheme, then netloc, then the fragment after the first `#`, then the
query after the first `?`. -/
def urlsplitCore (url : List Char) (defaultScheme : List Char) : UrlParts :=
  let sp := splitScheme url
  let scheme := if sp.1 = [] then defaultScheme else sp.1
  let np := splitNetloc sp.2
  let fp := match splitFirst '#' np.2 with
    | none => (np.2, ([] : List Char))
    | some (a, b) => (a, b)
  let qp := match splitFirst '?' fp.1 with
    | none => (fp.1, ([] : List Char))
    | some (a, b) => (a, b)
  ⟨scheme, np.1, qp.1, qp.2, fp.2⟩

/-- `urllib.parse.urlunsplit`. -/
def urlunsplitM (p : UrlParts) : List Char :=
  let url := p.path
  let url :=
    if p.netloc ≠ [] ∨ leadsWith ['/', '/'] url = true then
      '/' :: '/' :: (p.netloc ++
        (if url ≠ [] ∧ leadsWith ['/'] url = false then '/' :: url else url))
    else url
  let url := if p.scheme ≠ [] then p.scheme ++ ':' :: url else url
  let url := if p.query ≠ [] then url ++ '?' :: p.query else url
  if p.fragment ≠ [] then url ++ '#' :: p.fragment else url

/-- Schemes of `urllib.parse.uses_relative`. -/
def usesRelative : List (List Char) :=
  ["", "ftp", "http", "gopher", "nntp", "imap", "wais", "file", "https",
   "shttp", "mms", "prospero", "rtsp", "rtspu", "sftp", "svn", "svn+ssh",
   "ws", "wss"].map String.toList

/-- Schemes of `urllib.parse.uses_netloc`. -/
def usesNetloc : List (List Char) :=
  ["", "ftp", "http", "gopher", "nntp", "telnet", "imap", "wais", "file",
   "mms", "https", "shttp", "snews", "prospero", "rtsp", "rtspu", "rsync",
   "svn", "svn+ssh", "sftp", "nfs", "git", "git+ssh", "ws", "wss",
   "itms-services"].map String.toList

/-- Python `str.split(sep)` for a one-character separator, with the
accumulator holding the current segment reversed (`''.split('/')` is
`['']`, hence the result is always nonempty). -/
def splitOnCharAux (delim : Char) : List Char → List Char → List (List Char)
  | [], acc => [acc.reverse]
  | c :: cs, acc =>
    if c = delim then acc.reverse :: splitOnCharAux delim cs []
    else splitOnCharAux delim cs (c :: acc)

/-- Python `str.split(sep)` for a one-character separator. -/
def splitOnChar (delim : Char) (l : List Char) : List (List Char) :=
  splitOnCharAux delim l []

/-- `sep.join` for a one-character separator. -/
def joinChar (delim : Char) : List (List Char) → List Char
  | [] => []
  | [x] => x
  | x :: y :: xs => x ++ delim :: joinChar delim (y :: xs)

/-- `segments[1:-1] = filter(None, segments[1:-1])`: drop empty segments
strictly between the first and the last one. -/
def filterMiddle : List (List Char) → List (List Char)
  | [] => []
  | [x] => [x]
  | x :: y :: xs =>
    x :: (((y :: xs).dropLast.filter (fun s => !s.isEmpty)) ++ [(y :: xs).getLastD []])

/-- The dot-segment resolution loop of `urljoin` (`..` pops, `.` is
skipped, popping an empty stack is ignored). -/
def resolveSegs (acc : List (List Char)) : List (List Char) → List (List Char)
  | [] => acc
  | s :: rest =>
    if s = ['.', '.'] then resolveSegs acc.dropLast rest
    else if s = ['.'] then resolveSegs acc rest
    else resolveSegs (acc ++ [s]) rest

/-- `urllib.parse.urljoin(base, url)` on character lists. -/
def urljoinChars (base url : List Char) : List Char :=
  if base = [] then url
  else if url = [] then base
  else
    let b := urlsplitCore base []
    let u := urlsplitCore url b.scheme
    if u.scheme ≠ b.scheme ∨ u.scheme ∉ usesRelative then url
    else if u.scheme ∈ usesNetloc ∧ u.netloc ≠ [] then
      urlunsplitM ⟨u.scheme, u.netloc, u.path, u.query, u.fragment⟩
    else
      let netloc := if u.scheme ∈ usesNetloc then b.netloc else u.netloc
      if u.path = [] then
        urlunsplitM ⟨u.scheme, netloc, b.path,
          (if u.query = [] then b.query else u.query), u.fragment⟩
      else
        let baseParts0 := splitOnChar '/' b.path
        let baseParts :=
          if baseParts0.getLastD [] ≠ [] then baseParts0.dropLast else baseParts0
        let segments :=
          if leadsWith ['/'] u.path = true then splitOnChar '/' u.path
          else filterMiddle (baseParts ++ splitOnChar '/' u.path)
        let resolved := resolveSegs [] segments
        let resolved :=
          if segments.getLastD [] = ['.'] ∨ segments.getLastD [] = ['.', '.'] then
            resolved ++ [[]]
          else resolved
        let rpath := joinChar '/' resolved
        let rpath := if rpath = [] then ['/'] else rpath
        urlunsplitM ⟨u.scheme, netloc, rpath, u.query, u.fragment⟩

/-- `urllib.parse.urljoin` on strings. -/
def urljoinM (base url : String) : String :=
  ⟨urljoinChars base.toList url.toList⟩

/-! ## Level chain of `ConfigValidator.validate_and_extract`
(src/craw_paper_v1/verify_config.py lines 29-207) -/

/-- One entry of the configured `levels` list (empty pattern strings model
absent/empty configuration values, which are falsy in the source). -/
structure LevelConf where
  level : Nat
  name : String
  extractPattern : String
  filterPattern : String
  urlPattern : String
  description : String
  deriving DecidableEq

/-- The external calls the loop makes: `crawl u` is `crawler.arun(u)`
(`some html` on success, `none` on failure or exception), `findall p h`
is `re.findall(p, h, re.IGNORECASE)`, and `rematch p s` is the truthiness
of `re.match(p, s)`. -/
structure CrawlEnv where
  crawl : String → Option String
  findall : String → String → List String
  rematch : String → String → Bool

/-- `list(set(x))` on a list of strings, modelled as keeping the first
occurrence of each element (the Python iteration order of a `set` is
unspecified; every theorem below depends only on membership). -/
def dedupKeepFirst (seen : List String) : List String → List String
  | [] => []
  | x :: xs =>
    if x ∈ seen then dedupKeepFirst seen xs
    else x :: dedupKeepFirst (x :: seen) xs

/-- Relative-path handling of verify_config.py lines 104-110: a link that
starts with "http" is kept verbatim, a root-relative link is joined to
the configured base URL, anything else is joined to the page it was
extracted from. -/
def resolveLink (baseUrl sourceUrl link : String) : String :=
  if leadsWith "http".toList link.toList then link
  else if leadsWith "/".toList link.toList then urljoinM baseUrl link
  else urljoinM sourceUrl link

/-- The per-link result record built at verify_config.py lines 119-127. -/
structure LinkRecord where
  level : Nat
  levelName : String
  url : String
  sourceUrl : String
  extractPattern : String
  filterPattern : String
  matchedText : String
  deriving DecidableEq

/-- Record constructor matching the dict literal of lines 119-127. -/
def mkRecord (lc : LevelConf) (sourceUrl fullUrl link : String) : LinkRecord :=
  ⟨lc.level, lc.name, fullUrl, sourceUrl, lc.extractPattern, lc.filterPattern, link⟩

/-- The `for link in raw_links` loop (verify_config.py lines 103-145):
resolves each raw link and applies the filter rule, producing the
appended `level_results` records and `next_urls` entries in order. -/
def processLinks (env : CrawlEnv) (lc : LevelConf) (baseUrl sourceUrl : String) :
    List String → List LinkRecord × List String
  | [] => ([], [])
  | link :: rest =>
    let fullUrl := resolveLink baseUrl sourceUrl link
    let tail := processLinks env lc baseUrl sourceUrl rest
    if lc.filterPattern ≠ "" then
      if env.rematch lc.filterPattern fullUrl || env.rematch lc.filterPattern link then
        (mkRecord lc sourceUrl fullUrl link :: tail.1, fullUrl :: tail.2)
      else tail
    else (mkRecord lc sourceUrl fullUrl link :: tail.1, fullUrl :: tail.2)

/-- Processing of one source URL (verify_config.py lines 87-158): crawl
it; on success and with a nonempty extract pattern, extract the raw
links, dedup them, then resolve and filter each. -/
def processSource (env : CrawlEnv) (lc : LevelConf) (baseUrl sourceUrl : String) :
    List LinkRecord × List String :=
  match env.crawl sourceUrl with
  | none => ([], [])
  | some html =>
    if lc.extractPattern ≠ "" then
      processLinks env lc baseUrl sourceUrl
        (dedupKeepFirst [] (env.findall lc.extractPattern html))
    else ([], [])

/-- Per-URL dedup of `level_results` keeping the first record for each
`url` value (verify_config.py lines 160-167). -/
def dedupRecordsByUrl (seen : List String) : List LinkRecord → List LinkRecord
  | [] => []
  | r :: rs =>
    if r.url ∈ seen then dedupRecordsByUrl seen rs
    else r :: dedupRecordsByUrl (r.url :: seen) rs

/-- One level of the chain: process every pending URL, concatenate the
results, dedup the records by URL and dedup the next-level URL set
(verify_config.py lines 70-170). -/
def processLevel (env : CrawlEnv) (lc : LevelConf) (baseUrl : String)
    (urls : List String) : List LinkRecord × List String :=
  let step := urls.foldl
    (fun acc u =>
      let s := processSource env lc baseUrl u
      (acc.1 ++ s.1, acc.2 ++ s.2))
    ([], [])
  (dedupRecordsByUrl [] step.1, dedupKeepFirst [] step.2)

/-- The `for level_config in levels` loop (verify_config.py lines 53-196):
each executed level contributes `(level ordinal, deduped records,
deduped survivor set)`; the loop breaks after a level whose survivor set
is empty, and ends when the declared chain is exhausted. -/
def validateLevels (env : CrawlEnv) (baseUrl : String) :
    List LevelConf → List String → List (Nat × List LinkRecord × List String)
  | [], _ => []
  | lc :: rest, cur =>
    let step := processLevel env lc baseUrl cur
    (lc.level, step.1, step.2) ::
      (if step.2.isEmpty then [] else validateLevels env baseUrl rest step.2)

/-! ## Spec-side resolution rule (for claim C8).

These two definitions follow the words of spec §4.1 ("if `candidate`
already has a scheme (`http`/`https`), return as-is; if it starts with
`/`, join to the scheme+host of `base`; otherwise resolve relative to
`base`'s full path per standard URL-join semantics"), to be compared
with `resolveLink`, which is translated from the code. -/

/-- Spec wording: the candidate "already has a scheme (`http`/`https`)". -/
def specHasScheme (cand : String) : Bool :=
  leadsWith "http://".toList cand.toList || leadsWith "https://".toList cand.toList

/-- The scheme+host part of a URL, as in the spec wording "join to the
scheme+host of `base`". -/
def schemeHostOf (u : String) : String :=
  let p := urlsplitCore u.toList []
  ⟨p.scheme ++ ':' :: '/' :: '/' :: p.netloc⟩

/-- The resolution rule as the spec states it. -/
def specResolveRule (baseUrl sourceUrl cand : String) : String :=
  if specHasScheme cand then cand
  else if leadsWith "/".toList cand.toList then schemeHostOf baseUrl ++ cand
  else urljoinM sourceUrl cand

/-! ## Concrete witness environment (used only to instantiate theorems
on concrete inputs). -/

/-- A concrete crawl environment: the seed page "H1" links to one paper
listing and one unrelated page; the paper listing page "H2" contains no
extractable links. -/
def envW : CrawlEnv where
  crawl := fun u =>
    if u = "https://papers.nips.cc/" then some "H1"
    else if u = "https://papers.nips.cc/paper_files/paper/2024" then some "H2"
    else none
  findall := fun p h =>
    if p = "P1" && h = "H1" then ["/paper_files/paper/2024", "/forgot.html"]
    else []
  rematch := fun p s =>
    if p = "F1" then
      leadsWith "/paper_files/".toList s.toList ||
      leadsWith "https://papers.nips.cc/paper_files/".toList s.toList
    else false

/-- The level-1 rule of the concrete witness chain. -/
def lcW : LevelConf := ⟨1, "years", "P1", "F1", "", ""⟩

/-- A concrete 3-level chain whose level 2 produces zero survivors. -/
def cfgsW : List LevelConf :=
  [lcW, ⟨2, "papers", "P2", "", "", ""⟩, ⟨3, "files", "P3", "", "", ""⟩]

/-! ## Helper lemmas -/

theorem countInflight_set_le (ts : List TStat) (i : Nat) (v : TStat) :
    countInflight (ts.set i v) ≤
      countInflight ts + (if v = TStat.inflight then 1 else 0) := by
  induction ts generalizing i with
  | nil => simp [countInflight]
  | cons a as ih =>
    cases i with
    | zero => cases a <;> cases v <;> simp [countInflight]
    | succ j =>
      cases a <;> simp only [List.set, countInflight] <;>
        have := ih j <;> omega

theorem countInflight_replicate_pending (m : Nat) :
    countInflight (List.replicate m TStat.pending) = 0 := by
  induction m with
  | zero => rfl
  | succ k ih => simpa [List.replicate, countInflight] using ih

theorem capturePageAux_all_client_error (oracle : Nat → Attempt)
    (h : ∀ i, ∃ c, oracle i = Attempt.httpError c ∧ 400 ≤ c ∧ c ≤ 499) :
    ∀ fuel used, capturePageAux oracle fuel used = ⟨CapStatus.failed, used + fuel⟩ := by
  intro fuel
  induction fuel with
  | zero => intro used; rfl
  | succ k ih =>
    intro used
    obtain ⟨c, hc, -⟩ := h used
    simp only [capturePageAux, hc]
    rw [ih (used + 1)]
    congr 1
    omega

/-! ## Claim theorems -/

/-- C7: whenever challenge markers persist at each of the 3 automated
inspection rounds, `_handle_cloudflare` falls through to the blocking
manual prompt and then reports cleared unconditionally, with exactly 3
page inspections (it never re-inspects after the human signal) — for
both the page capturer's gate and the PDF downloader's gate. -/
theorem claim7_manual_clear_after_exhaustion :
    (∀ pages : Nat → String × String,
      (∀ i, i < 3 → isCloudflarePage (pages i).1 (pages i).2 = true) →
      handleCloudflare pages = ⟨true, true, 3⟩) ∧
    (∀ pages : Nat → String × String,
      (∀ i, i < 3 → isCloudflarePageDl (pages i).1 (pages i).2 = true) →
      handleCloudflareDl pages = ⟨true, true, 3⟩) := by
  constructor <;>
    (intro pages h
     simp [handleCloudflare, handleCloudflareDl, gateLoop,
       h 0 (by omega), h 1 (by omega), h 2 (by omega)])

/-- Witness for C7 at concrete challenge pages. -/
theorem claim7_witness :
    handleCloudflare (fun _ => ("Just a moment", "")) = ⟨true, true, 3⟩ ∧
    handleCloudflareDl (fun _ => ("", "Verify you are human")) = ⟨true, true, 3⟩ :=
  ⟨claim7_manual_clear_after_exhaustion.1 _ (fun i _ => by decide),
   claim7_manual_clear_after_exhaustion.2 _ (fun i _ => by decide)⟩

/-- C5 counterexample: a page whose content is exactly
"checking if the connection is secure" matches none of the markers the
code tests for, so every gate in the source classifies it as already
cleared on the first inspection, contradicting the claim that it is
classified as a challenge page. -/
theorem claim5_counterexample :
    isCloudflarePage "" "checking if the connection is secure" = false ∧
    isCloudflarePageDl "" "checking if the connection is secure" = false ∧
    jsIsChallengePage "" "checking if the connection is secure" = false ∧
    handleCloudflare (fun _ => ("", "checking if the connection is secure")) =
      ⟨true, false, 1⟩ := by
  refine ⟨by decide, by decide, by decide, by decide⟩

/-- C5 amended: the detection phrases are "请稍候"/"Just a moment" in the
title and "Cloudflare"/"Verify you are human" in the content (plus
"确认您是真人" in the downloader); a content string containing the marker
"Verify you are human" is classified CHALLENGED on first inspection, so
the gate inspects at least once more instead of clearing immediately. -/
theorem claim5_amended (pages : Nat → String × String)
    (h : pyIn "Verify you are human" (pages 0).2 = true) :
    2 ≤ (handleCloudflare pages).inspections := by
  have h0 : isCloudflarePage (pages 0).1 (pages 0).2 = true := by
    simp [isCloudflarePage, h]
  cases h1 : isCloudflarePage (pages 1).1 (pages 1).2 <;>
    cases h2 : isCloudflarePage (pages 2).1 (pages 2).2 <;>
    simp [handleCloudflare, gateLoop, h0, h1, h2]

/-- Witness for C5's amended theorem at a concrete challenge page. -/
theorem claim5_witness :
    pyIn "Verify you are human"
      ((fun _ => ("", "Verify you are human please")) 0).2 = true ∧
    2 ≤ (handleCloudflare (fun _ => ("", "Verify you are human please"))).inspections :=
  ⟨by decide, claim5_amended _ (by decide)⟩

/-- C2 counterexample: with `max_retries = 2`, a URL whose every fetch
returns HTTP 404 is fetched three times by `capture_page` (the non-ok
response `continue`s the retry loop), not once — the claim that a 4xx
response is never fetched again after the first attempt is false. -/
theorem claim2_counterexample :
    capturePage (fun _ => Attempt.httpError 404) 2 = ⟨CapStatus.failed, 3⟩ ∧
    1 < (capturePage (fun _ => Attempt.httpError 404) 2).fetches := by
  refine ⟨by decide, by decide⟩

/-- C2 amended: in `capture_page` an HTTP client-error response is
retried like any other failure — the URL is re-fetched on every remaining
iteration (`max_retries + 1` goto calls in all) and only then recorded
once as a terminal failed outcome; the browser PDF downloader performs no
retries at all, so there any response is terminal after its single fetch. -/
theorem claim2_amended :
    (∀ (oracle : Nat → Attempt) (maxRetries : Nat),
      (∀ i, ∃ c, oracle i = Attempt.httpError c ∧ 400 ≤ c ∧ c ≤ 499) →
      capturePage oracle maxRetries = ⟨CapStatus.failed, maxRetries + 1⟩) ∧
    (∀ f : PdfFetch, (downloadAttempt f).2 = 1) := by
  constructor
  · intro oracle maxRetries h
    have := capturePageAux_all_client_error oracle h (maxRetries + 1) 0
    simpa [capturePage] using this
  · intro f
    cases f <;> simp only [downloadAttempt] <;> split <;> rfl

/-- Witness for C2's amended theorem. -/
theorem claim2_witness :
    capturePage (fun _ => Attempt.httpError 403) 5 = ⟨CapStatus.failed, 6⟩ ∧
    (downloadAttempt (PdfFetch.httpErr 404)).2 = 1 :=
  ⟨claim2_amended.1 _ 5 (fun _ => ⟨403, rfl, by decide, by decide⟩),
   claim2_amended.2 _⟩

/-- C6: one pass of `run` appends exactly one outcome record per record
whose capture does not crash the browser, however many retry attempts
`capture_page` made internally; and a capture that times out twice then
succeeds on the third attempt (with `max_retries ≥ 2`) produces the
single outcome `success` after 3 fetches, not three outcomes. -/
theorem claim6_single_outcome :
    (∀ (oracle : Nat → Nat → Attempt) (maxRetries fuel : Nat),
      (capturePage (oracle 0) maxRetries).status ≠ CapStatus.crashed →
      processRecordAux oracle maxRetries 0 (fuel + 1) =
        [capturePage (oracle 0) maxRetries]) ∧
    (∀ (oracle : Nat → Attempt) (maxRetries : Nat),
      oracle 0 = Attempt.timeoutErr → oracle 1 = Attempt.timeoutErr →
      oracle 2 = Attempt.success → 2 ≤ maxRetries →
      capturePage oracle maxRetries = ⟨CapStatus.success, 3⟩) := by
  constructor
  · intro oracle maxRetries fuel h
    simp only [processRecordAux]
  · intro oracle maxRetries h0 h1 h2 hmr
    obtain ⟨k, rfl⟩ : ∃ k, maxRetries = k + 2 := ⟨maxRetries - 2, by omega⟩
    have e1 : capturePage oracle (k + 2) = capturePageAux oracle ((k + 2) + 1) 0 := rfl
    have e2 : capturePageAux oracle ((k + 2) + 1) 0 = capturePageAux oracle ((k + 1) + 1) 1 := by
      simp only [capturePageAux, h0]
    have e3 : capturePageAux oracle ((k + 1) + 1) 1 = capturePageAux oracle (k + 1) 2 := by
      simp only [capturePageAux, h1]
    have e4 : capturePageAux oracle (k + 1) 2 = ⟨CapStatus.success, 3⟩ := by
      cases k with
      | zero => simp [capturePageAux, h2]
      | succ j => simp [capturePageAux, h2]
    rw [e1, e2, e3, e4]

/-- Witness for C6 at a concrete record and oracle. -/
theorem claim6_witness :
    processRecordAux (fun _ _ => Attempt.success) 2 0 1 =
      [capturePage (fun _ => Attempt.success) 2] ∧
    capturePage
      (fun i => if i = 0 then Attempt.timeoutErr
                else if i = 1 then Attempt.timeoutErr else Attempt.success) 3 =
      ⟨CapStatus.success, 3⟩ :=
  ⟨claim6_single_outcome.1 _ 2 0 (by decide),
   claim6_single_outcome.2 _ 3 rfl rfl rfl (by decide)⟩

/-- C4: the save step of `CrawlerService.crawl` writes only matched URLs
that are not already in the set read back from the durable JSONL log, so
a URL already present in the log is never appended again; consequently
re-running the same crawl with the same matched set appends nothing. -/
theorem claim4_resume_idempotent :
    (∀ (log : List (Option String)) (matched : List String) (url : String),
      url ∈ loadExistingUrls log → url ∉ newUrls log matched) ∧
    (∀ (log : List (Option String)) (matched : List String),
      newUrls (saveRecords log matched) matched = []) := by
  constructor
  · intro log matched url hmem hnew
    rw [newUrls, List.mem_filter] at hnew
    exact (of_decide_eq_true hnew.2) hmem
  · intro log matched
    rw [newUrls, List.filter_eq_nil_iff]
    intro u hu
    have hsave : loadExistingUrls (saveRecords log matched) =
        loadExistingUrls log ++ newUrls log matched := by
      simp [saveRecords, loadExistingUrls, List.filterMap_append,
        List.filterMap_map, Function.comp]
    by_cases hin : u ∈ loadExistingUrls log
    · simp [hsave, hin]
    · have : u ∈ newUrls log matched := by
        rw [newUrls, List.mem_filter]
        exact ⟨hu, decide_eq_true hin⟩
      simp [hsave, this]

/-- Witness for C4 (the first conjunct of the theorem has hypotheses). -/
theorem claim4_witness :
    "https://a/x" ∈ loadExistingUrls [some "https://a/x", none] ∧
    "https://a/x" ∉ newUrls [some "https://a/x", none] ["https://a/x", "https://a/y"] ∧
    newUrls (saveRecords [some "https://a/x", none] ["https://a/x", "https://a/y"])
        ["https://a/x", "https://a/y"] = [] :=
  ⟨by decide, claim4_resume_idempotent.1 _ _ _ (by decide),
   claim4_resume_idempotent.2 _ _⟩

/-- C9: under the `asyncio.Semaphore(n)` discipline that wraps every
fetch/download task (`download_with_semaphore` in download_pdf.py,
`DownloadManager` in downloader_pdf.py), no interleaving reachable from
any number of pending tasks ever has more than `n` tasks in flight. -/
theorem claim9_concurrency_bound (n m : Nat) (ts : List TStat)
    (h : SemReach n (List.replicate m TStat.pending) ts) :
    countInflight ts ≤ n := by
  induction h with
  | refl => simp [countInflight_replicate_pending]
  | step hre hst ih =>
    rename_i ts ts2
    cases hst with
    | start i hi hn =>
      have := countInflight_set_le ts i TStat.inflight
      simp at this
      omega
    | finish i hi =>
      have := countInflight_set_le ts i TStat.done
      simp at this
      omega

/-- Witness for C9: 20 pending downloads under a semaphore of width 5,
after one task acquired the semaphore. -/
theorem claim9_witness :
    countInflight ((List.replicate 20 TStat.pending).set 0 TStat.inflight) ≤ 5 :=
  claim9_concurrency_bound 5 20 _
    (SemReach.step SemReach.refl
      (SemStep.start _ 0 (by decide) (by decide)))

/-! ## Lemmas about the sanitizer pipeline (for C10) -/

theorem dropWhile_head_not {p : Char → Bool} :
    ∀ {l : List Char} {c : Char}, (l.dropWhile p).head? = some c → p c = false := by
  intro l
  induction l with
  | nil => intro c h; simp at h
  | cons a as ih =>
    intro c h
    by_cases ha : p a
    · rw [List.dropWhile_cons_of_pos ha] at h; exact ih h
    · rw [List.dropWhile_cons_of_neg ha] at h
      simp at h
      subst h
      simpa using ha

theorem getLast?_dropWhile_of_some {p : Char → Bool} {m : List Char} {c : Char}
    (h : (m.dropWhile p).getLast? = some c) : m.getLast? = some c := by
  conv_lhs => rw [← List.takeWhile_append_dropWhile p m]
  rw [List.getLast?_append, h]
  rfl

theorem stripSpaceDot_subset (l : List Char) : stripSpaceDot l ⊆ l := by
  intro c hc
  rw [stripSpaceDot, List.mem_reverse] at hc
  have h1 := (List.dropWhile_sublist isSpaceDot
    (l := (l.dropWhile isSpaceDot).reverse)).subset hc
  rw [List.mem_reverse] at h1
  exact (List.dropWhile_sublist isSpaceDot (l := l)).subset h1

theorem stripSpaceDot_getLast {l : List Char} {c : Char}
    (h : (stripSpaceDot l).getLast? = some c) : isSpaceDot c = false := by
  rw [stripSpaceDot, List.getLast?_reverse] at h
  exact dropWhile_head_not h

theorem stripSpaceDot_head {l : List Char} {c : Char}
    (h : (stripSpaceDot l).head? = some c) : isSpaceDot c = false := by
  rw [stripSpaceDot, List.head?_reverse] at h
  have h2 : (l.dropWhile isSpaceDot).reverse.getLast? = some c :=
    getLast?_dropWhile_of_some h
  rw [List.getLast?_reverse] at h2
  exact dropWhile_head_not h2

theorem collapseRuns_ne_nil : ∀ {l : List Char}, l ≠ [] → collapseRuns l ≠ [] := by
  intro l
  induction l with
  | nil => intro h; exact absurd rfl h
  | cons a as ih =>
    intro _
    cases as with
    | nil =>
      by_cases ha : isSpaceUnd a <;> simp [collapseRuns, ha]
    | cons d ds =>
      by_cases ha : isSpaceUnd a
      · by_cases hd : isSpaceUnd d
        · simpa [collapseRuns, ha, hd] using ih (by simp)
        · simp [collapseRuns, ha, hd]
      · simp [collapseRuns, ha]

theorem collapseRuns_mem : ∀ {l : List Char} {c : Char}, c ∈ collapseRuns l →
    c = '_' ∨ (c ∈ l ∧ isSpaceUnd c = false) := by
  intro l
  induction l with
  | nil => intro c h; simp [collapseRuns] at h
  | cons a as ih =>
    intro c h
    cases as with
    | nil =>
      by_cases ha : isSpaceUnd a <;> simp [collapseRuns, ha] at h
      · exact Or.inl h
      · subst h
        exact Or.inr ⟨by simp, by simpa using ha⟩
    | cons d ds =>
      by_cases ha : isSpaceUnd a
      · by_cases hd : isSpaceUnd d
        · rw [collapseRuns, if_pos ha, if_pos hd] at h
          rcases ih h with h1 | ⟨h2, h3⟩
          · exact Or.inl h1
          · exact Or.inr ⟨List.mem_cons_of_mem a h2, h3⟩
        · rw [collapseRuns, if_pos ha, if_neg hd] at h
          rcases List.mem_cons.mp h with h1 | h1
          · exact Or.inl h1
          · rcases ih h1 with h2 | ⟨h3, h4⟩
            · exact Or.inl h2
            · exact Or.inr ⟨List.mem_cons_of_mem a h3, h4⟩
      · rw [collapseRuns, if_neg ha] at h
        rcases List.mem_cons.mp h with h1 | h1
        · exact Or.inr ⟨by simp [h1], by rw [h1]; simpa using ha⟩
        · rcases ih h1 with h2 | ⟨h3, h4⟩
          · exact Or.inl h2
          · exact Or.inr ⟨List.mem_cons_of_mem a h3, h4⟩

theorem collapseRuns_head_space : ∀ (l : List Char) (a : Char),
    isSpaceUnd a = true → (collapseRuns (a :: l)).head? = some '_' := by
  intro l
  induction l with
  | nil => intro a ha; simp [collapseRuns, ha]
  | cons d ds ih =>
    intro a ha
    by_cases hd : isSpaceUnd d
    · rw [collapseRuns, if_pos ha, if_pos hd]
      exact ih d hd
    · rw [collapseRuns, if_pos ha, if_neg hd]
      rfl

theorem collapseRuns_head : ∀ {l : List Char} {c : Char},
    (collapseRuns l).head? = some c → c = '_' ∨ l.head? = some c := by
  intro l
  induction l with
  | nil => intro c h; simp [collapseRuns] at h
  | cons a as ih =>
    intro c h
    by_cases ha : isSpaceUnd a
    · rw [collapseRuns_head_space as a ha] at h
      simp at h
      exact Or.inl h.symm
    · cases as with
      | nil =>
        simp [collapseRuns, ha] at h
        simp [← h]
      | cons d ds =>
        rw [collapseRuns, if_neg ha] at h
        simp at h
        exact Or.inr (by simp [h])

theorem collapseRuns_getLast : ∀ {l : List Char} {c : Char},
    (collapseRuns l).getLast? = some c → c = '_' ∨ l.getLast? = some c := by
  intro l
  induction l with
  | nil => intro c h; simp [collapseRuns] at h
  | cons a as ih =>
    intro c h
    cases as with
    | nil =>
      by_cases ha : isSpaceUnd a <;> simp [collapseRuns, ha] at h
      · exact Or.inl h.symm
      · simp [← h]
    | cons d ds =>
      by_cases ha : isSpaceUnd a
      · by_cases hd : isSpaceUnd d
        · rw [collapseRuns, if_pos ha, if_pos hd] at h
          rcases ih h with h1 | h1
          · exact Or.inl h1
          · exact Or.inr (by rw [List.getLast?_cons_cons]; exact h1)
        · rw [collapseRuns, if_pos ha, if_neg hd] at h
          have hne : collapseRuns (d :: ds) ≠ [] := collapseRuns_ne_nil (by simp)
          rcases hm : collapseRuns (d :: ds) with - | ⟨x, xs⟩
          · exact absurd hm hne
          · rw [hm, List.getLast?_cons_cons] at h
            rw [← hm] at h
            rcases ih h with h1 | h1
            · exact Or.inl h1
            · exact Or.inr (by rw [List.getLast?_cons_cons]; exact h1)
      · rw [collapseRuns, if_neg ha] at h
        have hne : collapseRuns (d :: ds) ≠ [] := collapseRuns_ne_nil (by simp)
        rcases hm : collapseRuns (d :: ds) with - | ⟨x, xs⟩
        · exact absurd hm hne
        · rw [hm, List.getLast?_cons_cons] at h
          rw [← hm] at h
          rcases ih h with h1 | h1
          · exact Or.inl h1
          · exact Or.inr (by rw [List.getLast?_cons_cons]; exact h1)

theorem sanitizeClean_chars {s : String} {c : Char} (hc : c ∈ sanitizeClean s) :
    isIllegalChar c = false ∧ pySpace c = false := by
  rcases collapseRuns_mem hc with h1 | ⟨h2, h3⟩
  · subst h1; exact ⟨by decide, by decide⟩
  · have hpy : pySpace c = false := by
      rw [isSpaceUnd, Bool.or_eq_false_iff] at h3
      exact h3.1
    have hill : isIllegalChar c = false := by
      have hc2 := stripSpaceDot_subset _ h2
      rcases List.mem_map.mp hc2 with ⟨x, -, hx⟩
      by_cases hix : isIllegalChar x
      · rw [if_pos hix] at hx; rw [← hx]; decide
      · rw [if_neg hix] at hx; rw [← hx]; simpa using hix
    exact ⟨hill, hpy⟩

theorem sanitizeClean_head {s : String} {c : Char}
    (h : (sanitizeClean s).head? = some c) : isSpaceDot c = false := by
  rcases collapseRuns_head h with h1 | h1
  · subst h1; decide
  · exact stripSpaceDot_head h1

theorem sanitizeClean_getLast {s : String} {c : Char}
    (h : (sanitizeClean s).getLast? = some c) : isSpaceDot c = false := by
  rcases collapseRuns_getLast h with h1 | h1
  · subst h1; decide
  · exact stripSpaceDot_getLast h1

/-- C10 counterexample: `sanitize "ab.c" 3` truncates to `"ab."`, which
ends in a dot — the claim that the result never has a trailing dot is
false (with `max_length = 3 ≥ 1` and a nonempty cleaned input). -/
theorem claim10_counterexample :
    sanitize "ab.c" 3 = "ab." ∧
    (sanitize "ab.c" 3).toList.getLast? = some '.' ∧ 1 ≤ (3 : Nat) := by
  refine ⟨by decide, by decide, by decide⟩

/-- C10 amended: for every input and `max_length ≥ 1`, `sanitize` returns
a non-empty string with no illegal filename characters and no whitespace,
whose first character is neither a space nor a dot; its length exceeds
`max_length` only for the fallback "unnamed"; and the result never ends
in a space, and ends in a dot only when truncation occurred (when the
cleaned name fits in `max_length`, there is no trailing dot either). -/
theorem claim10_amended (s : String) (m : Nat) (hm : 1 ≤ m) :
    sanitize s m ≠ "" ∧
    (∀ c ∈ (sanitize s m).toList, isIllegalChar c = false ∧ pySpace c = false) ∧
    (∀ c, (sanitize s m).toList.head? = some c → isSpaceDot c = false) ∧
    ((sanitize s m).toList.length ≤ m ∨ sanitize s m = "unnamed") ∧
    ((sanitizeClean s).length ≤ m →
      ∀ c, (sanitize s m).toList.getLast? = some c → isSpaceDot c = false) := by
  rw [sanitize]
  by_cases hlen : (sanitizeClean s).length > m
  · -- truncation branch
    rw [if_pos hlen]
    by_cases hemp : ((sanitizeClean s).take m).isEmpty
    · rw [if_pos hemp]
      refine ⟨by decide, by decide, ?_, Or.inr rfl, ?_⟩
      · intro c hc
        have : c = 'u' := by
          have : ("unnamed" : String).toList.head? = some 'u' := by decide
          rw [this] at hc; exact (Option.some.injEq ..).mp hc.symm
        subst this; decide
      · intro hfit; omega
    · rw [if_neg hemp]
      have htl : (String.mk ((sanitizeClean s).take m)).toList =
          (sanitizeClean s).take m := rfl
      refine ⟨?_, ?_, ?_, ?_, ?_⟩
      · intro h
        have : (sanitizeClean s).take m = [] := congrArg String.toList h
        rw [this] at hemp
        exact hemp rfl
      · intro c hc
        rw [htl] at hc
        exact sanitizeClean_chars (List.take_subset m _ hc)
      · intro c hc
        rw [htl, List.head?_take, if_neg (by omega)] at hc
        exact sanitizeClean_head hc
      · left
        rw [htl, List.length_take]
        omega
      · intro hfit; omega
  · -- no truncation
    rw [if_neg hlen]
    by_cases hemp : (sanitizeClean s).isEmpty
    · rw [if_pos hemp]
      refine ⟨by decide, by decide, ?_, Or.inr rfl, ?_⟩
      · intro c hc
        have : c = 'u' := by
          have : ("unnamed" : String).toList.head? = some 'u' := by decide
          rw [this] at hc; exact (Option.some.injEq ..).mp hc.symm
        subst this; decide
      · intro _ c hc
        have : c = 'd' := by
          have : ("unnamed" : String).toList.getLast? = some 'd' := by decide
          rw [this] at hc; exact (Option.some.injEq ..).mp hc.symm
        subst this; decide
    · rw [if_neg hemp]
      have htl : (String.mk (sanitizeClean s)).toList = sanitizeClean s := rfl
      refine ⟨?_, ?_, ?_, ?_, ?_⟩
      · intro h
        have : sanitizeClean s = [] := congrArg String.toList h
        rw [this] at hemp
        exact hemp rfl
      · intro c hc
        rw [htl] at hc
        exact sanitizeClean_chars hc
      · intro c hc
        rw [htl] at hc
        exact sanitizeClean_head hc
      · left
        rw [htl]
        omega
      · intro _ c hc
        rw [htl] at hc
        exact sanitizeClean_getLast hc

/-- Witness for C10's amended theorem at a concrete filename. -/
theorem claim10_witness :
    (1 : Nat) ≤ 100 ∧
    (sanitize " My Paper: v2?.pdf " 100 ≠ "" ∧
     (∀ c ∈ (sanitize " My Paper: v2?.pdf " 100).toList,
        isIllegalChar c = false ∧ pySpace c = false) ∧
     (∀ c, (sanitize " My Paper: v2?.pdf " 100).toList.head? = some c →
        isSpaceDot c = false) ∧
     ((sanitize " My Paper: v2?.pdf " 100).toList.length ≤ 100 ∨
        sanitize " My Paper: v2?.pdf " 100 = "unnamed") ∧
     ((sanitizeClean " My Paper: v2?.pdf ").length ≤ 100 →
       ∀ c, (sanitize " My Paper: v2?.pdf " 100).toList.getLast? = some c →
         isSpaceDot c = false)) :=
  ⟨by decide, claim10_amended " My Paper: v2?.pdf " 100 (by decide)⟩

/-! ## Lemmas about the level pipeline (for C1 and C3) -/

theorem mem_dedupKeepFirst :
    ∀ (l seen : List String) (x : String),
      x ∈ dedupKeepFirst seen l ↔ (x ∈ l ∧ x ∉ seen) := by
  intro l
  induction l with
  | nil => intro seen x; simp [dedupKeepFirst]
  | cons a as ih =>
    intro seen x
    by_cases ha : a ∈ seen
    · rw [dedupKeepFirst, if_pos ha, ih]
      simp only [List.mem_cons]
      constructor
      · rintro ⟨h1, h2⟩; exact ⟨Or.inr h1, h2⟩
      · rintro ⟨(rfl | h1), h2⟩
        · exact absurd ha h2
        · exact ⟨h1, h2⟩
    · rw [dedupKeepFirst, if_neg ha]
      simp only [List.mem_cons, ih]
      constructor
      · rintro (rfl | ⟨h1, h2⟩)
        · exact ⟨Or.inl rfl, ha⟩
        · exact ⟨Or.inr h1, fun hx => h2 (Or.inr hx)⟩
      · rintro ⟨(rfl | h1), h2⟩
        · exact Or.inl rfl
        · by_cases hxa : x = a
          · exact Or.inl hxa
          · exact Or.inr ⟨h1, fun hx => hx.elim hxa h2⟩

theorem processLinks_mem (env : CrawlEnv) (lc : LevelConf) (baseUrl sourceUrl : String) :
    ∀ (links : List String) (link : String),
      mkRecord lc sourceUrl (resolveLink baseUrl sourceUrl link) link ∈
          (processLinks env lc baseUrl sourceUrl links).1 ↔
        link ∈ links ∧ (lc.filterPattern = "" ∨
          env.rematch lc.filterPattern (resolveLink baseUrl sourceUrl link) = true ∨
          env.rematch lc.filterPattern link = true) := by
  intro links
  induction links with
  | nil => intro link; simp [processLinks]
  | cons l rest ih =>
    intro link
    rw [processLinks]
    by_cases hf : lc.filterPattern = ""
    · rw [if_neg (by simpa using hf)]
      simp only [List.mem_cons]
      constructor
      · rintro (heq | hmem)
        · have hl : link = l := congrArg LinkRecord.matchedText heq
          exact ⟨Or.inl hl, Or.inl hf⟩
        · obtain ⟨h1, h2⟩ := (ih link).mp hmem
          exact ⟨Or.inr h1, h2⟩
      · rintro ⟨(rfl | h1), hc⟩
        · exact Or.inl rfl
        · exact Or.inr ((ih link).mpr ⟨h1, hc⟩)
    · rw [if_pos hf]
      by_cases hg : (env.rematch lc.filterPattern (resolveLink baseUrl sourceUrl l) ||
          env.rematch lc.filterPattern l) = true
      · rw [if_pos hg]
        simp only [List.mem_cons]
        constructor
        · rintro (heq | hmem)
          · have hl : link = l := congrArg LinkRecord.matchedText heq
            subst hl
            exact ⟨Or.inl rfl, Or.inr (by simpa using hg)⟩
          · obtain ⟨h1, h2⟩ := (ih link).mp hmem
            exact ⟨Or.inr h1, h2⟩
        · rintro ⟨(rfl | h1), hc⟩
          · exact Or.inl rfl
          · exact Or.inr ((ih link).mpr ⟨h1, hc⟩)
      · rw [if_neg hg]
        rw [ih link]
        simp only [List.mem_cons]
        constructor
        · rintro ⟨h1, h2⟩; exact ⟨Or.inr h1, h2⟩
        · rintro ⟨(rfl | h1), hc⟩
          · exfalso
            rcases hc with hc | hc | hc
            · exact hf hc
            · exact hg (by simp [hc])
            · exact hg (by simp [hc])
          · exact ⟨h1, hc⟩

/-- C1: for every raw candidate extracted at a level, when a filter
pattern is declared the candidate survives (a result record with its
resolved URL is appended) iff the pattern matches the resolved absolute
URL or the raw candidate string, and when no filter pattern is declared
every resolved candidate survives. -/
theorem claim1_filter_survival (env : CrawlEnv) (lc : LevelConf)
    (baseUrl sourceUrl html link : String)
    (hcrawl : env.crawl sourceUrl = some html)
    (hex : lc.extractPattern ≠ "") :
    mkRecord lc sourceUrl (resolveLink baseUrl sourceUrl link) link ∈
        (processSource env lc baseUrl sourceUrl).1 ↔
      link ∈ env.findall lc.extractPattern html ∧
        (lc.filterPattern = "" ∨
         env.rematch lc.filterPattern (resolveLink baseUrl sourceUrl link) = true ∨
         env.rematch lc.filterPattern link = true) := by
  simp only [processSource, hcrawl]
  rw [if_pos (by simpa using hex)]
  rw [processLinks_mem, mem_dedupKeepFirst]
  simp

/-- Witness for C1 at the concrete environment: the listing-page link
survives the filter and the unrelated link does not. -/
theorem claim1_witness :
    (mkRecord lcW "https://papers.nips.cc/"
        (resolveLink "https://papers.nips.cc/" "https://papers.nips.cc/"
          "/paper_files/paper/2024") "/paper_files/paper/2024" ∈
      (processSource envW lcW "https://papers.nips.cc/" "https://papers.nips.cc/").1 ↔
      "/paper_files/paper/2024" ∈ envW.findall lcW.extractPattern "H1" ∧
        (lcW.filterPattern = "" ∨
         envW.rematch lcW.filterPattern
           (resolveLink "https://papers.nips.cc/" "https://papers.nips.cc/"
             "/paper_files/paper/2024") = true ∨
         envW.rematch lcW.filterPattern "/paper_files/paper/2024" = true)) ∧
    mkRecord lcW "https://papers.nips.cc/"
        (resolveLink "https://papers.nips.cc/" "https://papers.nips.cc/"
          "/forgot.html") "/forgot.html" ∉
      (processSource envW lcW "https://papers.nips.cc/" "https://papers.nips.cc/").1 :=
  ⟨claim1_filter_survival envW lcW _ _ "H1" _ (by decide) (by decide),
   fun hmem =>
    absurd ((claim1_filter_survival envW lcW "https://papers.nips.cc/"
      "https://papers.nips.cc/" "H1" "/forgot.html" (by decide) (by decide)).mp hmem)
      (by decide)⟩

/-- C3: the level chain executes at most the declared number of levels,
and whenever an executed level's survivor set is empty, the chain stops
right there — that level is the last entry of the execution trace, so no
later level is ever fetched. -/
theorem claim3_empty_survivors_stop (env : CrawlEnv) (baseUrl : String) :
    ∀ (cfgs : List LevelConf) (cur : List String),
      (validateLevels env baseUrl cfgs cur).length ≤ cfgs.length ∧
      ∀ (i : Nat) (h : i < (validateLevels env baseUrl cfgs cur).length),
        ((validateLevels env baseUrl cfgs cur).get ⟨i, h⟩).2.2 = [] →
        (validateLevels env baseUrl cfgs cur).length = i + 1 := by
  intro cfgs
  induction cfgs with
  | nil =>
    intro cur
    refine ⟨by simp [validateLevels], ?_⟩
    intro i h
    simp [validateLevels] at h
  | cons lc rest ih =>
    intro cur
    rw [validateLevels]
    by_cases hs : (processLevel env lc baseUrl cur).2.isEmpty
    · rw [if_pos hs]
      refine ⟨by simp, ?_⟩
      intro i h _
      have h1 : i < 1 := by simpa using h
      have h0 : i = 0 := by omega
      subst h0
      simp
    · rw [if_neg hs]
      refine ⟨by simpa using (ih (processLevel env lc baseUrl cur).2).1, ?_⟩
      intro i h hempty
      cases i with
      | zero =>
        exfalso
        simp at hempty
        rw [hempty] at hs
        exact hs rfl
      | succ j =>
        have h2 : j < (validateLevels env baseUrl rest
            (processLevel env lc baseUrl cur).2).length := by
          simpa using h
        have := (ih (processLevel env lc baseUrl cur).2).2 j h2 (by simpa using hempty)
        simp [this]

/-- Witness for C3: in the concrete 3-level chain, level 2 produces zero
survivors, so exactly 2 of the 3 declared levels execute and level 3 is
never reached. -/
theorem claim3_witness :
    (validateLevels envW "https://papers.nips.cc/" cfgsW
      ["https://papers.nips.cc/"]).length = 2 := by
  have h : 1 < (validateLevels envW "https://papers.nips.cc/" cfgsW
      ["https://papers.nips.cc/"]).length := by decide
  exact (claim3_empty_survivors_stop envW "https://papers.nips.cc/" cfgsW
    ["https://papers.nips.cc/"]).2 1 h rfl

/-! ## Lemmas about the urljoin model (for C8) -/

theorem splitFirst_eq_none {d : Char} :
    ∀ {l : List Char}, d ∉ l → splitFirst d l = none := by
  intro l
  induction l with
  | nil => intro _; rfl
  | cons c cs ih =>
    intro h
    rw [splitFirst, if_neg (fun hc => h (by simp [hc])),
      ih (fun hm => h (List.mem_cons_of_mem c hm))]

theorem splitScheme_head_nonalpha {c : Char} (hc : c.isAlpha = false)
    (cs : List Char) : splitScheme (c :: cs) = ([], c :: cs) := by
  rw [splitScheme, splitFirst]
  by_cases hcc : c = ':'
  · rw [if_pos hcc]
  · rw [if_neg hcc]
    cases hsp : splitFirst ':' cs with
    | none => rfl
    | some q => simp [hc]

theorem urlsplitCore_root_rel (c2 defaultScheme : List Char)
    (hhead : c2.head? ≠ some '/') (hq : '?' ∉ c2) (hf : '#' ∉ c2) :
    urlsplitCore ('/' :: c2) defaultScheme = ⟨defaultScheme, [], '/' :: c2, [], []⟩ := by
  have hn : leadsWith ['/', '/'] ('/' :: c2) = false := by
    cases c2 with
    | nil => rfl
    | cons d ds =>
      have hd : ¬('/' = d) := fun h => hhead (by simp [← h])
      simp [leadsWith, hd]
  have hq2 : '?' ∉ '/' :: c2 := by simp [hq]
  have hf2 : '#' ∉ '/' :: c2 := by simp [hf]
  rw [urlsplitCore]
  rw [splitScheme_head_nonalpha (c := '/') (by decide) c2]
  simp only [splitNetloc, hn]
  simp [splitFirst_eq_none hf2, splitFirst_eq_none hq2]

theorem splitOnCharAux_ne_nil (d : Char) :
    ∀ (l acc : List Char), splitOnCharAux d l acc ≠ [] := by
  intro l
  induction l with
  | nil => intro acc; simp [splitOnCharAux]
  | cons c cs ih =>
    intro acc
    rw [splitOnCharAux]
    by_cases hc : c = d
    · rw [if_pos hc]; simp
    · rw [if_neg hc]; exact ih (c :: acc)

theorem joinChar_splitOnCharAux (d : Char) :
    ∀ (l acc : List Char), joinChar d (splitOnCharAux d l acc) = acc.reverse ++ l := by
  intro l
  induction l with
  | nil => intro acc; simp [splitOnCharAux, joinChar]
  | cons c cs ih =>
    intro acc
    rw [splitOnCharAux]
    by_cases hc : c = d
    · rw [if_pos hc]
      cases hsp : splitOnCharAux d cs [] with
      | nil => exact absurd hsp (splitOnCharAux_ne_nil d cs [])
      | cons x xs =>
        rw [joinChar, ← hsp, ih []]
        simp [hc]
    · rw [if_neg hc, ih (c :: acc)]
      simp

theorem joinChar_splitOnChar (d : Char) (l : List Char) :
    joinChar d (splitOnChar d l) = l := by
  simpa [splitOnChar] using joinChar_splitOnCharAux d l []

theorem resolveSegs_no_dots :
    ∀ (segs acc : List (List Char)),
      (∀ s ∈ segs, s ≠ ['.'] ∧ s ≠ ['.', '.']) →
      resolveSegs acc segs = acc ++ segs := by
  intro segs
  induction segs with
  | nil => intro acc _; simp [resolveSegs]
  | cons s rest ih =>
    intro acc h
    have hs := h s (by simp)
    rw [resolveSegs, if_neg hs.2, if_neg hs.1,
      ih (acc ++ [s]) (fun t ht => h t (by simp [ht]))]
    simp

theorem getLastD_mem_ne_nil (l : List (List Char)) (h : l ≠ []) :
    l.getLastD [] ∈ l := by
  rw [List.getLastD_eq_getLast?, List.getLast?_eq_getLast l h]
  simpa using List.getLast_mem h

/-- C8 counterexample: the code's scheme test is the literal prefix
"http", so the candidate "httpfoo.html" — which has no http/https
scheme — is returned as-is, while the claimed rule resolves it against
the source page's path per standard URL-join semantics, giving a
different URL. -/
theorem claim8_counterexample :
    resolveLink "https://papers.nips.cc/" "https://ex.com/a/b.html" "httpfoo.html" =
      "httpfoo.html" ∧
    specHasScheme "httpfoo.html" = false ∧
    specResolveRule "https://papers.nips.cc/" "https://ex.com/a/b.html" "httpfoo.html" =
      "https://ex.com/a/httpfoo.html" ∧
    ("httpfoo.html" : String) ≠ "https://ex.com/a/httpfoo.html" := by
  refine ⟨by decide, by decide, by decide, by decide⟩

/-- C8 amended: a candidate starting with the literal prefix "http"
(which covers http/https URLs but also any other string with that
prefix) is returned as-is; a candidate starting with "/" (but not "//",
with no dot-segments and no query/fragment) is joined to the
scheme+host of the base URL; any other candidate is resolved against
the source page per standard URL-join semantics. -/
theorem claim8_amended :
    (∀ baseUrl sourceUrl link : String,
      leadsWith "http".toList link.toList = true →
      resolveLink baseUrl sourceUrl link = link) ∧
    (∀ (b : List Char) (sourceUrl : String) (c2 : List Char),
      b ≠ [] →
      (urlsplitCore b []).scheme ≠ [] →
      (urlsplitCore b []).scheme ∈ usesRelative →
      (urlsplitCore b []).scheme ∈ usesNetloc →
      (urlsplitCore b []).netloc ≠ [] →
      c2.head? ≠ some '/' →
      '?' ∉ c2 → '#' ∉ c2 →
      (∀ s ∈ splitOnChar '/' ('/' :: c2), s ≠ ['.'] ∧ s ≠ ['.', '.']) →
      resolveLink ⟨b⟩ sourceUrl ⟨'/' :: c2⟩ =
        ⟨(urlsplitCore b []).scheme ++ ':' :: '/' :: '/' ::
          ((urlsplitCore b []).netloc ++ '/' :: c2)⟩) ∧
    (∀ baseUrl sourceUrl link : String,
      leadsWith "http".toList link.toList = false →
      leadsWith "/".toList link.toList = false →
      resolveLink baseUrl sourceUrl link = urljoinM sourceUrl link) := by
  refine ⟨?_, ?_, ?_⟩
  · intro baseUrl sourceUrl link h
    rw [resolveLink, if_pos h]
  · intro b sourceUrl c2 hb0 hs0 hrel hnet hnl hhead hq hf hseg
    have hb1 : ¬ (leadsWith "http".toList (String.mk ('/' :: c2)).toList = true) := by
      intro h
      have hft : false = true := h
      exact Bool.false_ne_true hft
    have hb2 : leadsWith "/".toList (String.mk ('/' :: c2)).toList = true := rfl
    rw [resolveLink, if_neg hb1, if_pos hb2]
    show String.mk (urljoinChars b ('/' :: c2)) = _
    refine congrArg String.mk ?_
    have hu := urlsplitCore_root_rel c2 (urlsplitCore b []).scheme hhead hq hf
    have hne : splitOnChar '/' ('/' :: c2) ≠ [] := splitOnCharAux_ne_nil '/' ('/' :: c2) []
    have hlast := hseg _ (getLastD_mem_ne_nil _ hne)
    simp only [List.getLastD_eq_getLast?] at hlast
    simp [urljoinChars, hb0, hu, hrel, hnet, hnl, hs0, leadsWith,
      resolveSegs_no_dots (splitOnChar '/' ('/' :: c2)) [] hseg,
      hlast.1, hlast.2, joinChar_splitOnChar, urlunsplitM]
  · intro baseUrl sourceUrl link h1 h2
    simp only [String.toList] at h1 h2
    rw [resolveLink, if_neg (by simp [h1]), if_neg (by simp [h2])]

/-- Witness for C8's amended theorem: each branch at concrete inputs;
the root-relative branch instantiates the spec example
`base + "/paper_files/paper/2024/file/abc.pdf"`. -/
theorem claim8_witness :
    resolveLink "https://x.org/" "https://y.org/p/q.html" "http://z.org/a.pdf" =
      "http://z.org/a.pdf" ∧
    resolveLink "https://papers.nips.cc/" "https://src.org/p.html"
        "/paper_files/paper/2024/file/abc.pdf" =
      "https://papers.nips.cc/paper_files/paper/2024/file/abc.pdf" ∧
    resolveLink "https://x.org/" "https://y.org/p/q.html" "rel/a.pdf" =
      urljoinM "https://y.org/p/q.html" "rel/a.pdf" :=
  ⟨claim8_amended.1 "https://x.org/" "https://y.org/p/q.html" "http://z.org/a.pdf"
    (by decide),
   claim8_amended.2.1 "https://papers.nips.cc/".toList "https://src.org/p.html"
    "paper_files/paper/2024/file/abc.pdf".toList (by decide) (by decide) (by decide)
    (by decide) (by decide) (by decide) (by decide) (by decide) (by decide),
   claim8_amended.2.2 "https://x.org/" "https://y.org/p/q.html" "rel/a.pdf"
    (by decide) (by decide)⟩
